import Mathlib

/-!
Shallow embedding of `botutil/actions.go` from go-sc2ai: an action-batching
queue that accumulates outgoing commands (chat, camera moves, unit orders)
and flushes them in one batch per step, invoking an optional error handler
for each command the transport reports as failed.

Modelling conventions:
* machine integers that are only carried (unit tags `uint64`, ability ids
  `int32`, result codes `int32`) become `Nat`/`Int`;
* `float32` coordinates become `Float`; no arithmetic is performed on them;
* the transport collaborator `info.SendActions` becomes an explicit function
  argument `transport : List Action → List ActionResult` of `Send`;
* error-handler closures are modelled as opaque identifiers (`Nat`); an
  invocation of the handler is recorded as an entry in the returned
  `SendEffect.handlerCalls`, and the batches passed to the transport are
  recorded in `SendEffect.sent`;
* Go slice indexing `a.actions[i]` can panic; `Send` therefore returns
  `Option`, with `none` modelling an index-out-of-range panic.
-/

namespace SC2

/-- Unit tag (`api.UnitTag`, a `uint64`); only carried, never computed on. -/
abbrev UnitTag := Nat

/-- Ability identifier (`api.AbilityID`, an `int32`); only carried. -/
abbrev AbilityID := Int

/-- Action result code (`api.ActionResult`, an `int32` enum); only compared
for equality with the success value. -/
abbrev ActionResult := Nat

/-- The success result code (`api.ActionResult_Success = 1`). -/
def ActionResult_Success : ActionResult := 1

/-- World-space point (`api.Point2D` with `float32` coordinates). -/
structure Point2D where
  x : Float
  y : Float

/-- Chat channel (`api.ActionChat_Broadcast` / `api.ActionChat_Team`). -/
inductive ChatChannel where
  | Broadcast
  | Team
deriving DecidableEq

/-- Chat message payload (`api.ActionChat`). -/
structure ActionChat where
  Channel : ChatChannel
  Message : String

/-- Camera move payload (`api.ActionRawCameraMove`); the Go field is a
pointer, hence the `Option`. -/
structure ActionRawCameraMove where
  CenterWorldSpace : Option Point2D

/-- Optional target of a raw unit command: a target unit tag or a
world-space position (the Go position field is a pointer, hence `Option`). -/
inductive UnitCommandTarget where
  | TargetUnitTag (tag : UnitTag)
  | TargetWorldSpacePos (pos : Option Point2D)

/-- Raw unit command payload (`api.ActionRawUnitCommand`). -/
structure ActionRawUnitCommand where
  AbilityId : AbilityID
  UnitTags : List UnitTag
  Target : Option UnitCommandTarget

/-- The oneof inside `api.ActionRaw` (only the two variants this file
constructs). -/
inductive ActionRawVariant where
  | CameraMove (c : ActionRawCameraMove)
  | UnitCommand (c : ActionRawUnitCommand)

/-- Outgoing command (`api.Action`); the Go fields are pointers, hence the
`Option`s. Exactly one of them is set by the constructors in this file. -/
structure Action where
  ActionChat : Option ActionChat
  ActionRaw : Option ActionRawVariant

/-- Modelled from the spec: the underlying unit datum of the game-state
query layer (`api.Unit`), which the spec treats as an external collaborator
that resolves unit handles to identifiers; only the tag is needed here. -/
structure ApiUnit where
  Tag : UnitTag

/-- Modelled from the spec: a unit handle (`botutil.Unit`), which wraps a
possibly-nil pointer to the underlying unit datum. The `ctx` back-reference
to the owning bot is modelled by passing the `Actions` state explicitly to
the convenience order methods below. -/
structure Unit where
  raw : Option ApiUnit

/-- Modelled from the spec: `IsNil` reports whether the handle wraps a nil
unit pointer. -/
def Unit.IsNil (u : Unit) : Bool :=
  u.raw.isNone

/-- Modelled from the spec: `GetTag` resolves the handle to its unit
identifier (the nil tag 0 for a nil handle). -/
def Unit.GetTag (u : Unit) : UnitTag :=
  match u.raw with
  | none => 0
  | some x => x.Tag

/-- Modelled from the spec: a unit-group handle (`botutil.Units`) wrapping
the raw slice of units; the `ctx` back-reference is modelled by passing the
`Actions` state explicitly to the convenience order methods below. -/
structure Units where
  raw : List ApiUnit

/-- Modelled from the spec: `Tags` resolves the group handle to the
identifiers of its units. -/
def Units.Tags (us : Units) : List UnitTag :=
  us.raw.map ApiUnit.Tag

/-- State of the `Actions` batching queue: the agent-info reference is
opaque (`Nat`), `actions` is the ordered pending sequence, and
`errorHandler` is the optional registered handler (an opaque identifier). -/
structure Actions where
  info : Nat
  actions : List Action
  errorHandler : Option Nat

/-- NewActions creates a new manager with an empty queue and no handler
(`&Actions{info: info}`). The Go constructor also registers `a.Send` as a
before-step hook with the client; that external hook is out of scope here
(`Send` is modelled directly below). -/
def NewActions (info : Nat) : Actions :=
  { info := info, actions := [], errorHandler := none }

/-- OnActionError sets the handler that is called whenever an action errors
(`a.errorHandler = handler`). -/
def Actions.OnActionError (a : Actions) (handler : Nat) : Actions :=
  { a with errorHandler := some handler }

/-- Observable effects of one `Send` call: the batches passed to the
transport (zero or one of them) and the sequence of error-handler
invocations, each recorded as (handler, action, result). -/
structure SendEffect where
  sent : List (List Action)
  handlerCalls : List (Nat × Action × ActionResult)

/-- Pairs each element of a list with its index, starting from `i`:
the Go iteration `for i, r := range results`. -/
def enumerate (i : Nat) : List ActionResult → List (Nat × ActionResult)
  | [] => []
  | r :: rest => (i, r) :: enumerate (i + 1) rest

/-- The error-reporting loop of `Send`: for each indexed result that is not
`ActionResult_Success`, invoke the handler with `a.actions[i]` and the
result. `none` models the panic of the Go slice indexing `a.actions[i]`
when `i` is out of bounds. -/
def reportErrors (handler : Nat) (acts : List Action) :
    List (Nat × ActionResult) → Option (List (Nat × Action × ActionResult))
  | [] => some []
  | (i, r) :: rest =>
    if r = ActionResult_Success then
      reportErrors handler acts rest
    else
      match acts[i]? with
      | none => none
      | some act => (reportErrors handler acts rest).map
          (fun calls => (handler, act, r) :: calls)

/-- Send submits all queued actions as one batch: if the queue is empty it
returns immediately; otherwise it calls the transport
(`a.info.SendActions(a.actions)`), runs the error-reporting loop when a
handler is registered, and resets the queue (`a.actions = nil`). A `none`
return models a panic inside the reporting loop (in which case the Go code
never reaches the reset). -/
def Actions.Send (a : Actions) (transport : List Action → List ActionResult) :
    Option (Actions × SendEffect) :=
  if a.actions.length = 0 then
    some (a, ⟨[], []⟩)
  else
    match a.errorHandler with
    | none => some ({ a with actions := [] }, ⟨[a.actions], []⟩)
    | some handler =>
      match reportErrors handler a.actions (enumerate 0 (transport a.actions)) with
      | none => none
      | some calls => some ({ a with actions := [] }, ⟨[a.actions], calls⟩)

/-- Chat appends a broadcast chat command. -/
def Actions.Chat (a : Actions) (msg : String) : Actions :=
  { a with actions := a.actions ++
      [{ ActionChat := some { Channel := .Broadcast, Message := msg },
         ActionRaw := none }] }

/-- ChatTeam appends a team chat command. -/
def Actions.ChatTeam (a : Actions) (msg : String) : Actions :=
  { a with actions := a.actions ++
      [{ ActionChat := some { Channel := .Team, Message := msg },
         ActionRaw := none }] }

/-- MoveCamera appends a camera-move command centered on the point. -/
def Actions.MoveCamera (a : Actions) (pt : Point2D) : Actions :=
  { a with actions := a.actions ++
      [{ ActionChat := none,
         ActionRaw := some (.CameraMove { CenterWorldSpace := some pt }) }] }

/-- unitOrder wraps an `ActionRawUnitCommand` and appends it to the list. -/
def Actions.unitOrder (a : Actions) (cmd : ActionRawUnitCommand) : Actions :=
  { a with actions := a.actions ++
      [{ ActionChat := none, ActionRaw := some (.UnitCommand cmd) }] }

/-- unitsOrder orders units to all use an ability; a silent no-op when the
tag list is empty. -/
def Actions.unitsOrder (a : Actions) (unitTags : List UnitTag)
    (ability : AbilityID) : Actions :=
  if unitTags.length = 0 then a
  else a.unitOrder { AbilityId := ability, UnitTags := unitTags, Target := none }

/-- unitsOrderTarget orders units to all use an ability on a target unit;
a silent no-op when the tag list is empty. -/
def Actions.unitsOrderTarget (a : Actions) (unitTags : List UnitTag)
    (ability : AbilityID) (target : Unit) : Actions :=
  if unitTags.length = 0 then a
  else a.unitOrder { AbilityId := ability, UnitTags := unitTags,
                     Target := some (.TargetUnitTag target.GetTag) }

/-- unitsOrderPos orders units to all use an ability at a target location;
a silent no-op when the tag list is empty. -/
def Actions.unitsOrderPos (a : Actions) (unitTags : List UnitTag)
    (ability : AbilityID) (target : Option Point2D) : Actions :=
  if unitTags.length = 0 then a
  else a.unitOrder { AbilityId := ability, UnitTags := unitTags,
                     Target := some (.TargetWorldSpacePos target) }

/-- UnitOrder orders a single unit to use an ability. -/
def Actions.UnitOrder (a : Actions) (u : Unit) (ability : AbilityID) : Actions :=
  a.unitsOrder [u.GetTag] ability

/-- UnitOrderTarget orders a single unit to use an ability on a target unit. -/
def Actions.UnitOrderTarget (a : Actions) (u : Unit) (ability : AbilityID)
    (target : Unit) : Actions :=
  a.unitsOrderTarget [u.GetTag] ability target

/-- UnitOrderPos orders a single unit to use an ability at a target location. -/
def Actions.UnitOrderPos (a : Actions) (u : Unit) (ability : AbilityID)
    (target : Option Point2D) : Actions :=
  a.unitsOrderPos [u.GetTag] ability target

/-- UnitsOrder orders a group of units to all use an ability. -/
def Actions.UnitsOrder (a : Actions) (units : Units) (ability : AbilityID) :
    Actions :=
  a.unitsOrder units.Tags ability

/-- UnitsOrderTarget orders a group of units to all use an ability on a
target unit. -/
def Actions.UnitsOrderTarget (a : Actions) (units : Units)
    (ability : AbilityID) (target : Unit) : Actions :=
  a.unitsOrderTarget units.Tags ability target

/-- UnitsOrderPos orders a group of units to all use an ability at a target
location. -/
def Actions.UnitsOrderPos (a : Actions) (units : Units) (ability : AbilityID)
    (target : Option Point2D) : Actions :=
  a.unitsOrderPos units.Tags ability target

/-- Units.Order: convenience method giving an order directly to a group;
the Go receiver reaches the queue through `units.ctx.bot`, modelled here as
the explicit argument `a`. -/
def Units.Order (units : Units) (a : Actions) (ability : AbilityID) : Actions :=
  if units.raw.length > 0 then a.unitsOrder units.Tags ability else a

/-- Units.OrderTarget: convenience method giving a targeted order directly
to a group (queue passed explicitly, see `Units.Order`). -/
def Units.OrderTarget (units : Units) (a : Actions) (ability : AbilityID)
    (target : Unit) : Actions :=
  if units.raw.length > 0 then a.unitsOrderTarget units.Tags ability target
  else a

/-- Units.OrderPos: convenience method giving a positional order directly
to a group (queue passed explicitly, see `Units.Order`). -/
def Units.OrderPos (units : Units) (a : Actions) (ability : AbilityID)
    (target : Option Point2D) : Actions :=
  if units.raw.length > 0 then a.unitsOrderPos units.Tags ability target
  else a

/-- Unit.Order: convenience method giving an order directly to a unit
(queue passed explicitly, see `Units.Order`). -/
def Unit.Order (u : Unit) (a : Actions) (ability : AbilityID) : Actions :=
  if !u.IsNil then a.UnitOrder u ability else a

/-- Unit.OrderTarget: convenience method giving a targeted order directly
to a unit (queue passed explicitly, see `Units.Order`). -/
def Unit.OrderTarget (u : Unit) (a : Actions) (ability : AbilityID)
    (target : Unit) : Actions :=
  if !u.IsNil then a.UnitOrderTarget u ability target else a

/-- Unit.OrderPos: convenience method giving a positional order directly to
a unit (queue passed explicitly, see `Units.Order`). -/
def Unit.OrderPos (u : Unit) (a : Actions) (ability : AbilityID)
    (target : Option Point2D) : Actions :=
  if !u.IsNil then a.UnitOrderPos u ability target else a

/-- One enqueue call, covering every kind of command the queue accepts:
chat (broadcast or team), camera move, and the three unit-order variants. -/
inductive EnqueueOp where
  | chat (msg : String)
  | chatTeam (msg : String)
  | moveCamera (pt : Point2D)
  | unitsOrder (unitTags : List UnitTag) (ability : AbilityID)
  | unitsOrderTarget (unitTags : List UnitTag) (ability : AbilityID)
      (target : Unit)
  | unitsOrderPos (unitTags : List UnitTag) (ability : AbilityID)
      (target : Option Point2D)

/-- Run one enqueue call against the queue state. -/
def applyOp (a : Actions) : EnqueueOp → Actions
  | .chat msg => a.Chat msg
  | .chatTeam msg => a.ChatTeam msg
  | .moveCamera pt => a.MoveCamera pt
  | .unitsOrder tags ability => a.unitsOrder tags ability
  | .unitsOrderTarget tags ability target =>
      a.unitsOrderTarget tags ability target
  | .unitsOrderPos tags ability target => a.unitsOrderPos tags ability target

/-- Run a sequence of enqueue calls in order. -/
def applyOps (a : Actions) (ops : List EnqueueOp) : Actions :=
  List.foldl applyOp a ops

/-- Whether an enqueue call appends a command: every call does, except a
unit-order call whose unit-identifier list is empty (the spec's data model
requires a unit-order command to carry a non-empty identifier sequence). -/
def EnqueueOp.appends : EnqueueOp → Bool
  | .unitsOrder tags _ => !tags.isEmpty
  | .unitsOrderTarget tags _ _ => !tags.isEmpty
  | .unitsOrderPos tags _ _ => !tags.isEmpty
  | _ => true

/-- The command an (appending) enqueue call adds to the pending sequence. -/
def EnqueueOp.toAction : EnqueueOp → Action
  | .chat msg =>
      { ActionChat := some { Channel := .Broadcast, Message := msg },
        ActionRaw := none }
  | .chatTeam msg =>
      { ActionChat := some { Channel := .Team, Message := msg },
        ActionRaw := none }
  | .moveCamera pt =>
      { ActionChat := none,
        ActionRaw := some (.CameraMove { CenterWorldSpace := some pt }) }
  | .unitsOrder tags ability =>
      { ActionChat := none,
        ActionRaw := some (.UnitCommand
          { AbilityId := ability, UnitTags := tags, Target := none }) }
  | .unitsOrderTarget tags ability target =>
      { ActionChat := none,
        ActionRaw := some (.UnitCommand
          { AbilityId := ability, UnitTags := tags,
            Target := some (.TargetUnitTag target.GetTag) }) }
  | .unitsOrderPos tags ability target =>
      { ActionChat := none,
        ActionRaw := some (.UnitCommand
          { AbilityId := ability, UnitTags := tags,
            Target := some (.TargetWorldSpacePos target) }) }

/-- Specification-side description of the error-reporting loop's output:
one handler invocation per indexed result that is not a success, carrying
the command found at that index of the pending sequence. -/
def failedCalls (handler : Nat) (acts : List Action)
    (indexed : List (Nat × ActionResult)) : List (Nat × Action × ActionResult) :=
  indexed.filterMap fun p =>
    if p.2 = ActionResult_Success then none
    else (acts[p.1]?).map fun act => (handler, act, p.2)

/-- Two queue states agree on every field other than the pending sequence:
same agent-info reference and same registered error handler. -/
def sameFrame (a b : Actions) : Prop :=
  b.info = a.info ∧ b.errorHandler = a.errorHandler

/-- Sample broadcast chat command, used for concrete evaluations. -/
def sampleChat : Action :=
  { ActionChat := some { Channel := .Broadcast, Message := "gg" },
    ActionRaw := none }

theorem enumerate_mem_lt {l : List ActionResult} :
    ∀ {i : Nat} {p : Nat × ActionResult}, p ∈ enumerate i l → p.1 < i + l.length := by
  induction l with
  | nil => intro i p hp; simp [enumerate] at hp
  | cons r rest ih =>
    intro i p hp
    simp only [enumerate, List.mem_cons] at hp
    rcases hp with hp | hp
    · subst hp; simp
    · have := ih hp
      simpa [Nat.add_comm, Nat.add_left_comm] using Nat.lt_of_lt_of_le this (by omega)

theorem enumerate_mem_snd {l : List ActionResult} :
    ∀ {i : Nat} {p : Nat × ActionResult}, p ∈ enumerate i l → p.2 ∈ l := by
  induction l with
  | nil => intro i p hp; simp [enumerate] at hp
  | cons r rest ih =>
    intro i p hp
    simp only [enumerate, List.mem_cons] at hp
    rcases hp with hp | hp
    · subst hp; simp
    · exact List.mem_cons_of_mem _ (ih hp)

theorem reportErrors_eq_failedCalls (handler : Nat) (acts : List Action) :
    ∀ indexed : List (Nat × ActionResult),
      (∀ p ∈ indexed, p.1 < acts.length) →
      reportErrors handler acts indexed = some (failedCalls handler acts indexed) := by
  intro indexed
  induction indexed with
  | nil => intro _; rfl
  | cons p rest ih =>
    intro h
    obtain ⟨i, r⟩ := p
    have hi : i < acts.length := h (i, r) (List.mem_cons_self _ _)
    have hrest : ∀ q ∈ rest, q.1 < acts.length :=
      fun q hq => h q (List.mem_cons_of_mem _ hq)
    by_cases hr : r = ActionResult_Success
    · simp [reportErrors, failedCalls, hr, ih hrest, List.filterMap_cons]
    · simp [reportErrors, failedCalls, hr, ih hrest, List.filterMap_cons,
        List.getElem?_eq_getElem hi]

theorem reportErrors_handler_id (handler : Nat) (acts : List Action) :
    ∀ indexed calls, reportErrors handler acts indexed = some calls →
      ∀ c ∈ calls, c.1 = handler := by
  intro indexed
  induction indexed with
  | nil =>
    intro calls hcalls c hc
    simp only [reportErrors, Option.some.injEq] at hcalls
    subst hcalls
    simp at hc
  | cons p rest ih =>
    intro calls hcalls c hc
    obtain ⟨i, r⟩ := p
    by_cases hr : r = ActionResult_Success
    · rw [reportErrors, if_pos hr] at hcalls
      exact ih calls hcalls c hc
    · rw [reportErrors, if_neg hr] at hcalls
      cases hacts : acts[i]? with
      | none => rw [hacts] at hcalls; cases hcalls
      | some act =>
        rw [hacts] at hcalls
        cases hrest : reportErrors handler acts rest with
        | none => rw [hrest] at hcalls; cases hcalls
        | some tailCalls =>
          rw [hrest] at hcalls
          have hcalls2 : (handler, act, r) :: tailCalls = calls := by
            simpa using hcalls
          subst hcalls2
          rcases List.mem_cons.mp hc with hc | hc
          · subst hc; rfl
          · exact ih tailCalls hrest c hc

theorem send_of_empty (a : Actions) (transport : List Action → List ActionResult)
    (h : a.actions = []) : a.Send transport = some (a, ⟨[], []⟩) := by
  unfold Actions.Send
  rw [if_pos (by simp [h])]

theorem send_actions_eq_nil {a : Actions}
    {transport : List Action → List ActionResult} {a' : Actions}
    {eff : SendEffect} (h : a.Send transport = some (a', eff)) :
    a'.actions = [] := by
  unfold Actions.Send at h
  by_cases hlen : a.actions.length = 0
  · rw [if_pos hlen] at h
    simp only [Option.some.injEq, Prod.mk.injEq] at h
    obtain ⟨ha, -⟩ := h
    rw [← ha]
    exact List.length_eq_zero.mp hlen
  · rw [if_neg hlen] at h
    cases hh : a.errorHandler with
    | none =>
      simp only [hh, Option.some.injEq, Prod.mk.injEq] at h
      obtain ⟨ha, -⟩ := h
      rw [← ha]
    | some handler =>
      simp only [hh] at h
      cases hrep : reportErrors handler a.actions (enumerate 0 (transport a.actions)) with
      | none =>
        rw [hrep] at h
        exact Option.noConfusion h
      | some calls =>
        simp only [hrep, Option.some.injEq, Prod.mk.injEq] at h
        obtain ⟨ha, -⟩ := h
        rw [← ha]

theorem send_with_handler (a : Actions)
    (transport : List Action → List ActionResult) (handler : Nat)
    (hne : ¬a.actions.length = 0) (hh : a.errorHandler = some handler)
    (hb : ∀ p ∈ enumerate 0 (transport a.actions), p.1 < a.actions.length) :
    a.Send transport = some ({ a with actions := [] },
      ⟨[a.actions],
       failedCalls handler a.actions (enumerate 0 (transport a.actions))⟩) := by
  unfold Actions.Send
  rw [if_neg hne]
  simp only [hh]
  rw [reportErrors_eq_failedCalls handler a.actions _ hb]

theorem send_no_handler_no_calls (a : Actions)
    (transport : List Action → List ActionResult) (hh : a.errorHandler = none) :
    ∃ a' eff, a.Send transport = some (a', eff) ∧
      eff.sent.flatten = a.actions ∧ eff.handlerCalls = [] := by
  by_cases hlen : a.actions.length = 0
  · refine ⟨a, ⟨[], []⟩, ?_, ?_, rfl⟩
    · unfold Actions.Send
      rw [if_pos hlen]
    · simp [List.length_eq_zero.mp hlen]
  · refine ⟨{ a with actions := [] }, ⟨[a.actions], []⟩, ?_, ?_, rfl⟩
    · unfold Actions.Send
      rw [if_neg hlen]
      simp only [hh]
    · simp

theorem applyOp_sameFrame (a : Actions) (op : EnqueueOp) :
    sameFrame a (applyOp a op) := by
  cases op with
  | chat msg => exact ⟨rfl, rfl⟩
  | chatTeam msg => exact ⟨rfl, rfl⟩
  | moveCamera pt => exact ⟨rfl, rfl⟩
  | unitsOrder tags ability =>
    by_cases htags : tags.length = 0 <;>
      simp [applyOp, Actions.unitsOrder, Actions.unitOrder, htags, sameFrame]
  | unitsOrderTarget tags ability target =>
    by_cases htags : tags.length = 0 <;>
      simp [applyOp, Actions.unitsOrderTarget, Actions.unitOrder, htags, sameFrame]
  | unitsOrderPos tags ability target =>
    by_cases htags : tags.length = 0 <;>
      simp [applyOp, Actions.unitsOrderPos, Actions.unitOrder, htags, sameFrame]

theorem applyOp_actions (a : Actions) (op : EnqueueOp) (h : op.appends = true) :
    (applyOp a op).actions = a.actions ++ [op.toAction] := by
  cases op with
  | chat msg => rfl
  | chatTeam msg => rfl
  | moveCamera pt => rfl
  | unitsOrder tags ability =>
    cases tags with
    | nil => simp [EnqueueOp.appends] at h
    | cons t ts =>
      simp [applyOp, Actions.unitsOrder, Actions.unitOrder, EnqueueOp.toAction]
  | unitsOrderTarget tags ability target =>
    cases tags with
    | nil => simp [EnqueueOp.appends] at h
    | cons t ts =>
      simp [applyOp, Actions.unitsOrderTarget, Actions.unitOrder,
        EnqueueOp.toAction]
  | unitsOrderPos tags ability target =>
    cases tags with
    | nil => simp [EnqueueOp.appends] at h
    | cons t ts =>
      simp [applyOp, Actions.unitsOrderPos, Actions.unitOrder,
        EnqueueOp.toAction]

theorem applyOps_actions : ∀ (ops : List EnqueueOp) (a : Actions),
    (∀ op ∈ ops, op.appends = true) →
    (applyOps a ops).actions = a.actions ++ ops.map EnqueueOp.toAction := by
  intro ops
  induction ops with
  | nil => intro a _; simp [applyOps]
  | cons op rest ih =>
    intro a h
    have hop := h op (List.mem_cons_self _ _)
    have hrest : ∀ q ∈ rest, q.appends = true :=
      fun q hq => h q (List.mem_cons_of_mem _ hq)
    show (applyOps (applyOp a op) rest).actions = _
    rw [ih (applyOp a op) hrest, applyOp_actions a op hop]
    simp

theorem applyOps_errorHandler : ∀ (ops : List EnqueueOp) (a : Actions),
    (applyOps a ops).errorHandler = a.errorHandler := by
  intro ops
  induction ops with
  | nil => intro a; rfl
  | cons op rest ih =>
    intro a
    show (applyOps (applyOp a op) rest).errorHandler = _
    rw [ih (applyOp a op)]
    exact (applyOp_sameFrame a op).2

theorem send_calls_use_handler (a : Actions)
    (transport : List Action → List ActionResult) (handler : Nat)
    (hh : a.errorHandler = some handler) (a' : Actions) (eff : SendEffect)
    (hsend : a.Send transport = some (a', eff)) :
    ∀ c ∈ eff.handlerCalls, c.1 = handler := by
  intro c hc
  unfold Actions.Send at hsend
  by_cases hlen : a.actions.length = 0
  · rw [if_pos hlen] at hsend
    simp only [Option.some.injEq, Prod.mk.injEq] at hsend
    obtain ⟨-, heff⟩ := hsend
    rw [← heff] at hc
    simp at hc
  · rw [if_neg hlen] at hsend
    simp only [hh] at hsend
    cases hrep : reportErrors handler a.actions (enumerate 0 (transport a.actions)) with
    | none =>
      rw [hrep] at hsend
      exact Option.noConfusion hsend
    | some calls =>
      simp only [hrep, Option.some.injEq, Prod.mk.injEq] at hsend
      obtain ⟨-, heff⟩ := hsend
      rw [← heff] at hc
      exact reportErrors_handler_id handler a.actions _ calls hrep c hc

/-- C1: after any sequence of enqueue calls starting from a fresh empty
queue — any mix of chat, camera-move, and unit-order commands, where a
unit-order command carries the non-empty unit-identifier sequence the
spec's data model requires — the pending count equals the number of calls,
and a subsequent flush passes exactly those commands to the transport in
enqueue order. -/
theorem enqueue_count_and_flush_order (info : Nat) (ops : List EnqueueOp)
    (transport : List Action → List ActionResult)
    (hval : ∀ op ∈ ops, op.appends = true) :
    (applyOps (NewActions info) ops).actions.length = ops.length ∧
    (applyOps (NewActions info) ops).actions = ops.map EnqueueOp.toAction ∧
    ∃ a' eff, (applyOps (NewActions info) ops).Send transport = some (a', eff) ∧
      eff.sent.flatten = ops.map EnqueueOp.toAction := by
  have hacts := applyOps_actions ops (NewActions info) hval
  have hnil : (NewActions info).actions = [] := rfl
  rw [hnil, List.nil_append] at hacts
  refine ⟨?_, hacts, ?_⟩
  · rw [hacts]
    simp
  · obtain ⟨a', eff, hsend, hflat, -⟩ :=
      send_no_handler_no_calls (applyOps (NewActions info) ops) transport
        ((applyOps_errorHandler ops (NewActions info)).trans rfl)
    exact ⟨a', eff, hsend, by rw [hflat, hacts]⟩

/-- Witness for C1: a concrete mixed sequence of three enqueue calls. -/
theorem enqueue_count_and_flush_order_witness :
    (applyOps (NewActions 0)
      [.chat "gg", .unitsOrder [1, 2] 3, .chatTeam "glhf"]).actions.length = 3 ∧
    (applyOps (NewActions 0)
      [.chat "gg", .unitsOrder [1, 2] 3, .chatTeam "glhf"]).actions =
      List.map EnqueueOp.toAction
        [.chat "gg", .unitsOrder [1, 2] 3, .chatTeam "glhf"] ∧
    ∃ a' eff, (applyOps (NewActions 0)
        [.chat "gg", .unitsOrder [1, 2] 3, .chatTeam "glhf"]).Send
        (fun acts => acts.map fun _ => ActionResult_Success) = some (a', eff) ∧
      eff.sent.flatten = List.map EnqueueOp.toAction
        [.chat "gg", .unitsOrder [1, 2] 3, .chatTeam "glhf"] :=
  enqueue_count_and_flush_order 0
    [.chat "gg", .unitsOrder [1, 2] 3, .chatTeam "glhf"]
    (fun acts => acts.map fun _ => ActionResult_Success) (by decide)

/-- C2: flushing a non-empty queue with a registered handler and a result
sequence order-aligned with the batch invokes the handler exactly once per
non-success index, with the command that was at that index of the sent
batch and that result; when every result is a success the handler is never
invoked. -/
theorem flush_reports_failures_at_indices (a : Actions)
    (transport : List Action → List ActionResult) (handler : Nat)
    (hne : a.actions ≠ []) (hh : a.errorHandler = some handler)
    (hlen : (transport a.actions).length = a.actions.length) :
    ∃ a' eff, a.Send transport = some (a', eff) ∧
      eff.handlerCalls =
        failedCalls handler a.actions (enumerate 0 (transport a.actions)) ∧
      ((∀ r ∈ transport a.actions, r = ActionResult_Success) →
        eff.handlerCalls = []) := by
  have hb : ∀ p ∈ enumerate 0 (transport a.actions), p.1 < a.actions.length := by
    intro p hp
    have hlt := enumerate_mem_lt hp
    omega
  have hlen0 : ¬a.actions.length = 0 :=
    fun h0 => hne (List.length_eq_zero.mp h0)
  refine ⟨_, _, send_with_handler a transport handler hlen0 hh hb, rfl, ?_⟩
  intro hall
  simp only [failedCalls, List.filterMap_eq_nil_iff]
  intro p hp
  rw [if_pos (hall p.2 (enumerate_mem_snd hp))]

/-- Witness for C2: one queued chat command, a handler, and a transport
reporting the failure code 4 at index 0. -/
theorem flush_reports_failures_at_indices_witness :
    ∃ a' eff, ({ info := 0, actions := [sampleChat], errorHandler := some 7 } :
        Actions).Send (fun _ => [4]) = some (a', eff) ∧
      eff.handlerCalls = failedCalls 7 [sampleChat] (enumerate 0 [4]) ∧
      ((∀ r ∈ [(4 : ActionResult)], r = ActionResult_Success) →
        eff.handlerCalls = []) :=
  flush_reports_failures_at_indices ⟨0, [sampleChat], some 7⟩ (fun _ => [4]) 7
    (List.cons_ne_nil _ _) rfl rfl

/-- C3: after every flush that returns, the pending sequence is empty,
whether or not the transport reported failures. -/
theorem flush_clears_pending (a : Actions)
    (transport : List Action → List ActionResult) (a' : Actions)
    (eff : SendEffect) (h : a.Send transport = some (a', eff)) :
    a'.actions = [] :=
  send_actions_eq_nil h

/-- Witness for C3: a flush whose only result is the failure code 4 still
leaves the pending sequence empty. -/
theorem flush_clears_pending_witness :
    ({ info := 0, actions := [], errorHandler := some 7 } : Actions).actions = [] :=
  flush_clears_pending ⟨0, [sampleChat], some 7⟩ (fun _ => [4])
    ⟨0, [], some 7⟩ ⟨[[sampleChat]], [(7, sampleChat, 4)]⟩ rfl

/-- C4: flushing an empty queue returns immediately: the state is returned
unchanged, no batch is passed to the transport, and no handler is called —
in particular the transport is never called with a zero-element batch. -/
theorem flush_empty_noop (a : Actions)
    (transport : List Action → List ActionResult) (h : a.actions = []) :
    a.Send transport = some (a, ⟨[], []⟩) :=
  send_of_empty a transport h

/-- Witness for C4: a fresh empty queue flushed against some transport. -/
theorem flush_empty_noop_witness :
    ({ info := 0, actions := [], errorHandler := none } : Actions).Send
      (fun _ => []) =
      some (({ info := 0, actions := [], errorHandler := none } : Actions),
        ⟨[], []⟩) :=
  flush_empty_noop ⟨0, [], none⟩ (fun _ => []) rfl

/-- C5: a unit-order enqueue whose unit-identifier list is empty is a
silent no-op in all three variants (no target, unit target, position
target): the whole queue state, in particular the pending sequence, is
unchanged. -/
theorem units_order_empty_noop (a : Actions) (ability : AbilityID)
    (target : Unit) (pos : Option Point2D) :
    a.unitsOrder [] ability = a ∧
    a.unitsOrderTarget [] ability target = a ∧
    a.unitsOrderPos [] ability pos = a :=
  ⟨rfl, rfl, rfl⟩

/-- C6: with no handler registered, a flush whose results contain failures
invokes no handler and reports nothing; OnActionError replaces the current
handler, and every subsequent handler invocation goes to the newly
registered handler only. -/
theorem handler_default_and_replacement (a : Actions)
    (transport : List Action → List ActionResult) (handler : Nat) :
    (a.errorHandler = none →
      ∃ a' eff, a.Send transport = some (a', eff) ∧ eff.handlerCalls = []) ∧
    (a.OnActionError handler).errorHandler = some handler ∧
    (∀ a' eff, (a.OnActionError handler).Send transport = some (a', eff) →
      ∀ c ∈ eff.handlerCalls, c.1 = handler) := by
  refine ⟨?_, rfl, ?_⟩
  · intro hh
    obtain ⟨a', eff, hsend, -, hcalls⟩ :=
      send_no_handler_no_calls a transport hh
    exact ⟨a', eff, hsend, hcalls⟩
  · intro a' eff hsend
    exact send_calls_use_handler (a.OnActionError handler) transport handler
      rfl a' eff hsend

/-- Witness for C6: a queue with no handler, flushed against a transport
that reports the failure code 4, invokes no handler. -/
theorem handler_default_and_replacement_witness :
    ∃ a' eff, ({ info := 0, actions := [sampleChat], errorHandler := none } :
        Actions).Send (fun _ => [4]) = some (a', eff) ∧
      eff.handlerCalls = [] :=
  (handler_default_and_replacement ⟨0, [sampleChat], none⟩ (fun _ => [4]) 7).1
    rfl

/-- C7: flush is idempotent: immediately after a flush that returned, a
second flush finds the queue empty, returns the state unchanged, and calls
neither the transport nor the handler. -/
theorem flush_idempotent (a : Actions)
    (t1 t2 : List Action → List ActionResult) (a1 : Actions)
    (eff1 : SendEffect) (h : a.Send t1 = some (a1, eff1)) :
    a1.Send t2 = some (a1, ⟨[], []⟩) :=
  send_of_empty a1 t2 (send_actions_eq_nil h)

/-- Witness for C7: a second flush after flushing one chat command. -/
theorem flush_idempotent_witness :
    ({ info := 0, actions := [], errorHandler := none } : Actions).Send
      (fun _ => [1]) =
      some (({ info := 0, actions := [], errorHandler := none } : Actions),
        ⟨[], []⟩) :=
  flush_idempotent ⟨0, [sampleChat], none⟩ (fun _ => [1]) (fun _ => [1])
    ⟨0, [], none⟩ ⟨[[sampleChat]], []⟩ rfl

/-- C8: whenever the transport's result sequence is no longer than the sent
batch, every index used by the error-reporting loop is in bounds for the
pending sequence, so Send never hits the out-of-range panic (never returns
none). -/
theorem report_loop_index_safe (a : Actions)
    (transport : List Action → List ActionResult)
    (hle : (transport a.actions).length ≤ a.actions.length) :
    (a.Send transport).isSome = true := by
  unfold Actions.Send
  by_cases hlen : a.actions.length = 0
  · rw [if_pos hlen]
    rfl
  · rw [if_neg hlen]
    cases hh : a.errorHandler with
    | none => rfl
    | some handler =>
      have hb : ∀ p ∈ enumerate 0 (transport a.actions),
          p.1 < a.actions.length := by
        intro p hp
        have hlt := enumerate_mem_lt hp
        omega
      have hrep := reportErrors_eq_failedCalls handler a.actions _ hb
      simp [hrep]

/-- Witness for C8: one queued command, one (failing) result. -/
theorem report_loop_index_safe_witness :
    (({ info := 0, actions := [sampleChat], errorHandler := some 7 } :
        Actions).Send (fun _ => [4])).isSome = true :=
  report_loop_index_safe ⟨0, [sampleChat], some 7⟩ (fun _ => [4]) (by decide)

/-- C9: every enqueue operation leaves the agent-info reference and the
registered error handler unchanged; in this embedding the transport is an
argument of Send only, so no enqueue operation can invoke it. -/
theorem enqueue_frame (a : Actions) (msg : String) (pt : Point2D) (u : Unit)
    (us : Units) (ability : AbilityID) (target : Unit)
    (pos : Option Point2D) :
    sameFrame a (a.Chat msg) ∧
    sameFrame a (a.ChatTeam msg) ∧
    sameFrame a (a.MoveCamera pt) ∧
    sameFrame a (a.UnitOrder u ability) ∧
    sameFrame a (a.UnitOrderTarget u ability target) ∧
    sameFrame a (a.UnitOrderPos u ability pos) ∧
    sameFrame a (a.UnitsOrder us ability) ∧
    sameFrame a (a.UnitsOrderTarget us ability target) ∧
    sameFrame a (a.UnitsOrderPos us ability pos) :=
  ⟨⟨rfl, rfl⟩, ⟨rfl, rfl⟩, ⟨rfl, rfl⟩,
    applyOp_sameFrame a (.unitsOrder [u.GetTag] ability),
    applyOp_sameFrame a (.unitsOrderTarget [u.GetTag] ability target),
    applyOp_sameFrame a (.unitsOrderPos [u.GetTag] ability pos),
    applyOp_sameFrame a (.unitsOrder us.Tags ability),
    applyOp_sameFrame a (.unitsOrderTarget us.Tags ability target),
    applyOp_sameFrame a (.unitsOrderPos us.Tags ability pos)⟩

/-- C10: the convenience order methods are no-ops for degenerate receivers:
calling them on an empty unit group or on a nil unit handle enqueues
nothing and leaves the queue state unchanged. -/
theorem degenerate_order_noop (a : Actions) (ability : AbilityID)
    (target : Unit) (pos : Option Point2D) :
    Units.Order ⟨[]⟩ a ability = a ∧
    Units.OrderTarget ⟨[]⟩ a ability target = a ∧
    Units.OrderPos ⟨[]⟩ a ability pos = a ∧
    Unit.Order ⟨none⟩ a ability = a ∧
    Unit.OrderTarget ⟨none⟩ a ability target = a ∧
    Unit.OrderPos ⟨none⟩ a ability pos = a :=
  ⟨rfl, rfl, rfl, rfl, rfl, rfl⟩

end SC2
